import Mathlib

/-!
Formal model of the sync engine in `src/sync.go` of `aws-site-manager`.

File contents are modelled as optional byte sequences (`Option ByteSeq`):
`none` stands for a file that `os.Open` fails to open, `some bs` for a file
whose full content reads as `bs`.  External collaborators are parameters:
`gzipBest` models `gzip` at `BestCompression` level, `md5hex` the lowercase
hexadecimal MD5 digest, `detectContentType` the byte-pattern detection of
`http.DetectContentType`.  Machine integers (`int64` sizes, counts) are
modelled as `Int`.
-/

/-- Byte sequences; a byte is a `Nat` (values below 256 in the real program,
nothing below depends on the bound). -/
abbrev ByteSeq := List Nat

/-- Lines 23-35 of `sync.go`: the fixed extension-to-content-type table
`contentTypeMap`, keyed by extension without a leading dot. -/
def contentTypeMap : List (String × String) :=
  [("css", "text/css"), ("html", "text/html"), ("htm", "text/html"),
   ("ico", "image/x-ico"), ("js", "text/javascript"), ("jpg", "image/jpeg"),
   ("gif", "image/gif"), ("png", "image/png"), ("xml", "application/xml"),
   ("svg", "image/svg+xml"), ("jpeg", "image/jpeg")]

/-- Lines 37-44 of `sync.go`: the fixed compression blacklist, keyed by
extension without a leading dot; a Go map to `bool` read with the
zero-value default is membership in this list. -/
def compressBlacklist : List String :=
  [("gif"), ("jpg"), ("png"), ("jpeg"), ("psd"), ("ai")]

/-- Scanner for `filepath.Ext`: walk the path from its last character
backwards; on the first dot return the suffix from that dot on, on a path
separator (or the start of the path) return the empty string.  `acc` holds
the characters already passed, in forward order. -/
def extScan (acc : List Char) : List Char → List Char
  | [] => []
  | c :: rest =>
      if c = ('/' : Char) then []
      else if c = ('.' : Char) then ('.' : Char) :: acc
      else extScan (c :: acc) rest

/-- Go's `filepath.Ext`: the suffix beginning at the final dot in the final
path element, the empty string when there is no dot.  The returned
extension keeps its leading dot (`filepath.Ext "a.gif" = ".gif"`). -/
def filepathExt (path : String) : String :=
  String.mk (extScan [] path.data.reverse)

/-- Go's `strings.ToLower`, applied character by character (`Char.toLower`
lowers the ASCII range, which covers every extension appearing in this
development). -/
def stringToLower (s : String) : String := String.mk (s.data.map Char.toLower)

/-- Modelled from the spec: `CheckErr` is defined in this repository outside
`src/` (only `sync.go` is present there).  Per the spec a per-item open or
read failure is "reported but does not abort the run", so `CheckErr` is
modelled as reporting the error (the returned flag is `true` exactly when an
error was present) and returning control to its caller rather than aborting. -/
def CheckErr (errPresent : Bool) : Bool := errPresent

/-- Result of `Hashfile` (lines 140-151): the digest string, the returned
error value, and whether an open failure was reported via `CheckErr`. -/
structure HashResult where
  hash : String
  err : Option String
  openFailureReported : Bool

/-- Lines 140-151 of `sync.go`: open the file, copy its bytes into an MD5
hasher, return the hex digest.  On an open failure `CheckErr` reports and
control continues; `io.Copy` from the failed handle copies no bytes and its
error is discarded, so the digest of the empty stream is produced.  The only
`return` statement of the function pairs the digest with a `nil` error. -/
def Hashfile (md5hex : ByteSeq → String) (content : Option ByteSeq) : HashResult :=
  match content with
  | none =>
      { hash := md5hex [], err := none, openFailureReported := CheckErr true }
  | some bs =>
      { hash := md5hex bs, err := none, openFailureReported := CheckErr false }

/-- Lines 46-50 of `sync.go`: the `FileInfo` record built by `GetAllFiles`.
`size` models `fileInfo.Size()`; `content` models the bytes `os.Open` on
`path` yields (`none` when the open fails). -/
structure FileInfo where
  path : String
  key : String
  size : Int
  content : Option ByteSeq

/-- Lines 186-191 of `sync.go`: a 512-byte zero-initialised buffer filled by
one `Read` from the original file (a read returns all available bytes up to
512); on an open or read failure `CheckErr` reports and the buffer stays
zero.  The whole 512-byte buffer, trailing zeros included, is what reaches
`http.DetectContentType`. -/
def sniffBuffer (content : Option ByteSeq) : ByteSeq :=
  match content with
  | some bs => bs.take 512 ++ List.replicate (512 - bs.length) 0
  | none => List.replicate 512 0

/-- Everything the body of `UploadFileHandler` (lines 156-227) computes for
one file: the lowered extension, the compression decision and resulting
upload source, the content classification (and whether it came from byte
sniffing), the digest compared against the stored etag, whether the caller's
hash-error branch fired, whether the upload was skipped, and the key emitted
on `doneChan` on a successful upload. -/
structure StepResult where
  suffix : String
  compressed : Bool
  contentEncoding : String
  sniffed : Bool
  contentType : String
  uploadSource : Option ByteSeq
  hash : String
  hashErrReported : Bool
  skipped : Bool
  emitted : Option String

/-- The per-file body of `UploadFileHandler` (lines 156-227 of `sync.go`).
`s3Keys` is the frozen remote inventory (key to etag), `reUpload` the force
flag.  Compression (lines 160-179) writes `gzip` at `BestCompression` of the
original bytes to a fresh temporary file which becomes the upload source;
when the original cannot be opened, `CheckErr` reports, `io.Copy` copies
nothing and the temporary file holds the gzip stream of empty input.
Content classification (lines 182-195) consults `contentTypeMap` and sniffs
the original file on a miss.  The digest (line 197) is `Hashfile` of the
upload source.  The skip test (lines 202-205) and the emission of the
key prefixed with the path separator (lines 223-226, modelling
`url.ParseRequestURI("/" + file.key)` re-serialised, which keeps the leading
separator) follow; uploads themselves are external and modelled as
succeeding. -/
def uploadFileStep (gzipBest : ByteSeq → ByteSeq) (md5hex : ByteSeq → String)
    (detectContentType : ByteSeq → String) (s3Keys : String → Option String)
    (reUpload : Bool) (file : FileInfo) : StepResult :=
  let suffix := stringToLower (filepathExt file.path)
  let compressed := !(compressBlacklist.contains suffix) && decide (file.size > 500)
  let uploadSource : Option ByteSeq :=
    if compressed then some (gzipBest (file.content.getD [])) else file.content
  let contentEncoding := if compressed then ("gzip") else ("")
  let tableHit := contentTypeMap.lookup suffix
  let contentType :=
    match tableHit with
    | some t => t
    | none => detectContentType (sniffBuffer file.content)
  let hres := Hashfile md5hex uploadSource
  let skipped :=
    match s3Keys file.key with
    | some etag => !reUpload && (etag == hres.hash)
    | none => false
  { suffix := suffix
    compressed := compressed
    contentEncoding := contentEncoding
    sniffed := tableHit.isNone
    contentType := contentType
    uploadSource := uploadSource
    hash := hres.hash
    hashErrReported := hres.err.isSome
    skipped := skipped
    emitted := if skipped then none else some (("/") ++ file.key) }

/-- Concrete stand-in for gzip at `BestCompression`, used to evaluate the
model on closed inputs (the engine's logic never depends on the codec's
internals, only on which bytes it is fed). -/
def demoGzip (bs : ByteSeq) : ByteSeq := 31 :: 139 :: bs

/-- Concrete stand-in for the hex MD5 digest, used to evaluate the model on
closed inputs; it is a function of exactly the hashed bytes. -/
def demoHash (bs : ByteSeq) : String := toString (bs : List Nat)

/-- Concrete stand-in for `http.DetectContentType`, used to evaluate the
model on closed inputs. -/
def demoDetect (bs : ByteSeq) : String :=
  if bs.length = 0 then ("x") else ("application/octet-stream")

lemma Hashfile_err_none (md5hex : ByteSeq → String) (c : Option ByteSeq) :
    (Hashfile md5hex c).err = none := by
  cases c <;> rfl

lemma Hashfile_hash_eq (md5hex : ByteSeq → String) (c : Option ByteSeq) :
    (Hashfile md5hex c).hash = md5hex (c.getD []) := by
  cases c <;> rfl

lemma uploadFileStep_hash_def (gz : ByteSeq → ByteSeq) (md5 det : ByteSeq → String)
    (inv : String → Option String) (ru : Bool) (f : FileInfo) :
    (uploadFileStep gz md5 det inv ru f).hash
      = (Hashfile md5 (uploadFileStep gz md5 det inv ru f).uploadSource).hash := rfl

lemma uploadFileStep_uploadSource_def (gz : ByteSeq → ByteSeq) (md5 det : ByteSeq → String)
    (inv : String → Option String) (ru : Bool) (f : FileInfo) :
    (uploadFileStep gz md5 det inv ru f).uploadSource
      = (if (uploadFileStep gz md5 det inv ru f).compressed then
          some (gz (f.content.getD [])) else f.content) := rfl

lemma uploadFileStep_skipped_def (gz : ByteSeq → ByteSeq) (md5 det : ByteSeq → String)
    (inv : String → Option String) (ru : Bool) (f : FileInfo) :
    (uploadFileStep gz md5 det inv ru f).skipped
      = (match inv f.key with
         | some etag => !ru && (etag == (uploadFileStep gz md5 det inv ru f).hash)
         | none => false) := rfl

lemma uploadFileStep_emitted_def (gz : ByteSeq → ByteSeq) (md5 det : ByteSeq → String)
    (inv : String → Option String) (ru : Bool) (f : FileInfo) :
    (uploadFileStep gz md5 det inv ru f).emitted
      = (if (uploadFileStep gz md5 det inv ru f).skipped then none
         else some (("/") ++ f.key)) := rfl

lemma uploadFileStep_hashErrReported_def (gz : ByteSeq → ByteSeq) (md5 det : ByteSeq → String)
    (inv : String → Option String) (ru : Bool) (f : FileInfo) :
    (uploadFileStep gz md5 det inv ru f).hashErrReported
      = (Hashfile md5 (uploadFileStep gz md5 det inv ru f).uploadSource).err.isSome := rfl

lemma uploadFileStep_hash_congr (gz : ByteSeq → ByteSeq) (md5 det : ByteSeq → String)
    (inv₁ inv₂ : String → Option String) (ru₁ ru₂ : Bool) (f : FileInfo) :
    (uploadFileStep gz md5 det inv₁ ru₁ f).hash
      = (uploadFileStep gz md5 det inv₂ ru₂ f).hash := rfl

lemma uploadFileStep_skipped_iff (gz : ByteSeq → ByteSeq) (md5 det : ByteSeq → String)
    (inv : String → Option String) (ru : Bool) (f : FileInfo) :
    (uploadFileStep gz md5 det inv ru f).skipped = true
      ↔ ∃ etag, inv f.key = some etag ∧ ru = false
          ∧ etag = (uploadFileStep gz md5 det inv ru f).hash := by
  rw [uploadFileStep_skipped_def]
  cases h : inv f.key with
  | none => simp
  | some etag => cases ru <;> simp [h]

/-- C1: a local file is uploaded (its skip test fails) if and only if its key
is absent from the remote inventory snapshot, or the force-reupload flag is
set, or the stored digest differs from the computed digest; equivalently the
upload is skipped exactly when the inventory has the key, the force flag is
false, and the stored digest equals the computed digest (lines 202-205 of
`sync.go`). -/
theorem upload_iff_absent_or_changed_or_forced (gz : ByteSeq → ByteSeq)
    (md5 det : ByteSeq → String) (inv : String → Option String) (ru : Bool)
    (f : FileInfo) :
    ((uploadFileStep gz md5 det inv ru f).skipped = false
      ↔ (inv f.key = none ∨ ru = true
          ∨ ∀ etag, inv f.key = some etag
              → etag ≠ (uploadFileStep gz md5 det inv ru f).hash))
    ∧ ((uploadFileStep gz md5 det inv ru f).skipped = true
      ↔ (∃ etag, inv f.key = some etag ∧ ru = false
          ∧ etag = (uploadFileStep gz md5 det inv ru f).hash)) := by
  constructor
  · rw [uploadFileStep_skipped_def]
    cases h : inv f.key with
    | none => simp
    | some etag => cases ru <;> simp [h]
  · exact uploadFileStep_skipped_iff gz md5 det inv ru f

/-- Closed instance of the skip criterion: a small unchanged file whose
stored digest equals its computed digest is skipped. -/
theorem upload_iff_absent_or_changed_or_forced_witness :
    (uploadFileStep demoGzip demoHash demoDetect
      (fun k => if k == ("a.txt") then some (demoHash [1]) else none) false
      (FileInfo.mk ("a.txt") ("a.txt") 3 (some [1]))).skipped = true :=
  (upload_iff_absent_or_changed_or_forced demoGzip demoHash demoDetect
      (fun k => if k == ("a.txt") then some (demoHash [1]) else none) false
      (FileInfo.mk ("a.txt") ("a.txt") 3 (some [1]))).2.mpr
    ⟨demoHash [1], rfl, rfl, rfl⟩

/-- C2 fails on the code: `strings.ToLower(filepath.Ext(path))` keeps the
leading dot (it yields ".gif"), while `compressBlacklist` is keyed without
dots, so the blacklist lookup of line 161 never matches and a 600-byte
".gif" file is compressed even though "gif" is in the blacklist. -/
theorem gif_file_compressed_despite_blacklist :
    stringToLower (filepathExt ("a.gif")) = (".gif")
    ∧ compressBlacklist.contains (".gif") = false
    ∧ compressBlacklist.contains ("gif") = true
    ∧ (uploadFileStep demoGzip demoHash demoDetect (fun _ => none) false
        (FileInfo.mk ("a.gif") ("a.gif") 600 (some [1, 2, 3]))).compressed = true :=
  ⟨rfl, rfl, rfl, rfl⟩

set_option maxRecDepth 8000 in
/-- C3 fails on the code: the suffix looked up in `contentTypeMap` keeps its
leading dot (".css"), while the table is keyed without dots ("css"), so the
lookup of line 182 always misses and the classification of a `.css` file is
obtained by byte sniffing instead of the table's "text/css". -/
theorem css_file_sniffed_despite_table :
    contentTypeMap.lookup ("css") = some ("text/css")
    ∧ contentTypeMap.lookup (stringToLower (filepathExt ("style.css"))) = none
    ∧ (uploadFileStep demoGzip demoHash demoDetect (fun _ => none) false
        (FileInfo.mk ("style.css") ("style.css") 10 (some [104, 105]))).sniffed = true
    ∧ (uploadFileStep demoGzip demoHash demoDetect (fun _ => none) false
        (FileInfo.mk ("style.css") ("style.css") 10 (some [104, 105]))).contentType
      = demoDetect (sniffBuffer (some [104, 105])) :=
  ⟨rfl, rfl, rfl, rfl⟩

/-- C4: the digest compared against the stored etag is computed over the
bytes of the upload source: the gzip output when compression was applied,
and the original file's bytes otherwise (line 197 hashes `uploadPath`). -/
theorem hash_over_uploaded_bytes (gz : ByteSeq → ByteSeq) (md5 det : ByteSeq → String)
    (inv : String → Option String) (ru : Bool) (f : FileInfo) :
    (uploadFileStep gz md5 det inv ru f).hash
        = md5 (((uploadFileStep gz md5 det inv ru f).uploadSource).getD [])
    ∧ ((uploadFileStep gz md5 det inv ru f).compressed = true →
        (uploadFileStep gz md5 det inv ru f).uploadSource
          = some (gz (f.content.getD [])))
    ∧ ((uploadFileStep gz md5 det inv ru f).compressed = false →
        (uploadFileStep gz md5 det inv ru f).uploadSource = f.content) := by
  refine ⟨?_, ?_, ?_⟩
  · rw [uploadFileStep_hash_def, Hashfile_hash_eq]
  · intro h
    rw [uploadFileStep_uploadSource_def, h]
    simp
  · intro h
    rw [uploadFileStep_uploadSource_def, h]
    simp

/-- Closed instance: a 600-byte file is hashed over its gzip output, a
3-byte file over its original bytes. -/
theorem hash_over_uploaded_bytes_witness :
    (uploadFileStep demoGzip demoHash demoDetect (fun _ => none) false
        (FileInfo.mk ("big.txt") ("big.txt") 600 (some [1]))).uploadSource
      = some (demoGzip [1])
    ∧ (uploadFileStep demoGzip demoHash demoDetect (fun _ => none) false
        (FileInfo.mk ("small.txt") ("small.txt") 3 (some [2]))).uploadSource
      = some [2] := by
  constructor
  · exact (hash_over_uploaded_bytes demoGzip demoHash demoDetect (fun _ => none) false
      (FileInfo.mk ("big.txt") ("big.txt") 600 (some [1]))).2.1 rfl
  · exact (hash_over_uploaded_bytes demoGzip demoHash demoDetect (fun _ => none) false
      (FileInfo.mk ("small.txt") ("small.txt") 3 (some [2]))).2.2 rfl

/-- C5 fails on the code: for a file whose bytes cannot be opened for
hashing, `Hashfile` reports the open failure (via the spec-modelled
`CheckErr`) but returns the digest of the empty stream paired with a `nil`
error, so the run continues with that digest; when the inventory's stored
etag happens to equal the empty-stream digest and the force flag is false,
the file is skipped, not uploaded. -/
theorem unreadable_file_skipped_not_uploaded :
    (Hashfile demoHash none).err = none
    ∧ (Hashfile demoHash none).openFailureReported = true
    ∧ (uploadFileStep demoGzip demoHash demoDetect
        (fun k => if k == ("secret.txt") then some (demoHash []) else none) false
        (FileInfo.mk ("secret.txt") ("secret.txt") 100 none)).skipped = true
    ∧ (uploadFileStep demoGzip demoHash demoDetect
        (fun k => if k == ("secret.txt") then some (demoHash []) else none) false
        (FileInfo.mk ("secret.txt") ("secret.txt") 100 none)).emitted = none :=
  ⟨rfl, rfl, rfl, rfl⟩

/-- C8: every key a worker emits on the done channel is the file's
synchronization key with the leading path separator enforced, so it begins
with the separator character (lines 223-226 of `sync.go`). -/
theorem emitted_key_has_leading_separator (gz : ByteSeq → ByteSeq)
    (md5 det : ByteSeq → String) (inv : String → Option String) (ru : Bool)
    (f : FileInfo) (s : String)
    (h : (uploadFileStep gz md5 det inv ru f).emitted = some s) :
    s = ("/") ++ f.key ∧ s.data.head? = some ('/' : Char) := by
  rw [uploadFileStep_emitted_def] at h
  by_cases hs : (uploadFileStep gz md5 det inv ru f).skipped
  · rw [if_pos hs] at h
    exact absurd h (by simp)
  · rw [if_neg hs] at h
    have hv : s = ("/") ++ f.key := (Option.some_inj.mp h).symm
    subst hv
    refine ⟨rfl, ?_⟩
    show (("/") ++ f.key).data.head? = some ('/' : Char)
    have hdata : (("/") ++ f.key).data = ('/' : Char) :: f.key.data := rfl
    rw [hdata]
    rfl

/-- Closed instance: uploading a new file `b.txt` emits the key "/b.txt". -/
theorem emitted_key_has_leading_separator_witness :
    ("/b.txt" : String) = ("/") ++ ("b.txt")
    ∧ ("/b.txt" : String).data.head? = some ('/' : Char) :=
  emitted_key_has_leading_separator demoGzip demoHash demoDetect (fun _ => none)
    false (FileInfo.mk ("b.txt") ("b.txt") 3 (some [1])) ("/b.txt") rfl

/-- C10: the only `return` statement of `Hashfile` pairs the digest with a
`nil` error, so `Hashfile` never returns a non-nil error and the caller's
"Hash error" branch in `UploadFileHandler` (lines 198-200) never fires. -/
theorem hashfile_never_errors :
    (∀ (md5 : ByteSeq → String) (c : Option ByteSeq), (Hashfile md5 c).err = none)
    ∧ ∀ (gz : ByteSeq → ByteSeq) (md5 det : ByteSeq → String)
        (inv : String → Option String) (ru : Bool) (f : FileInfo),
        (uploadFileStep gz md5 det inv ru f).hashErrReported = false := by
  constructor
  · exact Hashfile_err_none
  · intro gz md5 det inv ru f
    rw [uploadFileStep_hashErrReported_def, Hashfile_err_none]
    rfl

/-- A CloudFront distribution as `InvalidCloudFront` reads it: its
identifier and the CNAME aliases configured on it. -/
structure Distribution where
  id : String
  aliases : List String

/-- The invalidation batch built at lines 120-129 of `sync.go`: the path
quantity (`int64(len(*paths))`) and the path items. -/
structure InvalidationBatch where
  quantity : Int
  items : List String

/-- The invalidation request: the resolved distribution identifier and the
batch.  The caller reference (`GetCallerReference`, defined outside `src/`)
is an opaque idempotency token and is not modelled. -/
structure InvalidationRequest where
  distributionId : String
  batch : InvalidationBatch

/-- Lines 109-118 of `sync.go`: scan the distribution list in order; inside
each distribution set the identifier if any alias equals the domain; stop at
the first distribution that produced a non-empty identifier.  No match
leaves the identifier empty. -/
def findDistributionId (domain : String) : List Distribution → String
  | [] => ("")
  | d :: rest =>
      let hit := if d.aliases.contains domain then d.id else ("")
      if hit ≠ ("") then hit else findDistributionId domain rest

/-- Lines 94-138 of `sync.go`: `InvalidCloudFront` returns immediately when
the changed-path list is empty (no invalidation call); otherwise it resolves
the distribution for the domain and submits exactly one invalidation request
whose batch carries every changed path.  The returned value is the submitted
request, `none` when no call is made. -/
def InvalidCloudFront (domain : String) (dists : List Distribution)
    (paths : List String) : Option InvalidationRequest :=
  if paths.length = 0 then none
  else
    some { distributionId := findDistributionId domain dists
           batch := { quantity := (paths.length : Int), items := paths } }

/-- C6: the invalidation batcher makes no call when the changed-key set is
empty, and otherwise submits exactly one batch containing every changed key
(and a quantity equal to the key count). -/
theorem invalidation_noop_iff_empty_and_single_batch (domain : String)
    (dists : List Distribution) (paths : List String) :
    (InvalidCloudFront domain dists paths = none ↔ paths = [])
    ∧ ∀ req, InvalidCloudFront domain dists paths = some req
        → req.batch.items = paths ∧ req.batch.quantity = (paths.length : Int) := by
  constructor
  · constructor
    · intro h
      by_contra hne
      rw [InvalidCloudFront, if_neg (by simpa using hne)] at h
      exact Option.noConfusion h
    · intro h
      subst h
      rfl
  · intro req h
    rw [InvalidCloudFront] at h
    by_cases hz : paths.length = 0
    · rw [if_pos hz] at h
      exact absurd h (by simp)
    · rw [if_neg hz] at h
      have := Option.some_inj.mp h
      subst this
      exact ⟨rfl, rfl⟩

/-- Closed instance: an empty changed-key set produces no call, and the
two-key set from the spec's end-to-end scenario is submitted as one batch
holding exactly those keys. -/
theorem invalidation_noop_iff_empty_and_single_batch_witness :
    InvalidCloudFront ("example.com") [] [] = none
    ∧ (InvalidationRequest.mk ("")
        (InvalidationBatch.mk 2 [("/a.txt"), ("/b.txt")])).batch.items
      = [("/a.txt"), ("/b.txt")] := by
  constructor
  · exact (invalidation_noop_iff_empty_and_single_batch ("example.com") [] []).1.mpr rfl
  · exact ((invalidation_noop_iff_empty_and_single_batch ("example.com") []
      [("/a.txt"), ("/b.txt")]).2
      (InvalidationRequest.mk ("") (InvalidationBatch.mk 2 [("/a.txt"), ("/b.txt")])) rfl).1

/-- One sync run's uploads: the keys of the enumerated files whose skip test
fails (lines 202-205), i.e. the files the worker pool uploads. -/
def runUploadedKeys (gz : ByteSeq → ByteSeq) (md5 det : ByteSeq → String)
    (inv : String → Option String) (ru : Bool) (files : List FileInfo) : List String :=
  files.filterMap (fun f =>
    if (uploadFileStep gz md5 det inv ru f).skipped then none else some f.key)

/-- The remote inventory after a run: a key uploaded during the run now
stores the digest of the bytes that were uploaded for it (the remote store's
etag of a plain put is the content digest, which is exactly the digest the
worker computed at line 197); every other key keeps its previous etag. -/
def postInventory (gz : ByteSeq → ByteSeq) (md5 det : ByteSeq → String)
    (inv : String → Option String) (ru : Bool) (files : List FileInfo) :
    String → Option String := fun k =>
  match files.find? (fun f =>
      !(uploadFileStep gz md5 det inv ru f).skipped && (f.key == k)) with
  | some f => some (uploadFileStep gz md5 det inv ru f).hash
  | none => inv k

lemma key_inj_of_nodup {l : List FileInfo}
    (h : (l.map FileInfo.key).Nodup) :
    ∀ a ∈ l, ∀ b ∈ l, a.key = b.key → a = b := by
  induction l with
  | nil => intro a ha; exact absurd ha (List.not_mem_nil a)
  | cons f t ih =>
      rw [List.map_cons, List.nodup_cons] at h
      intro a ha b hb hk
      rcases List.mem_cons.mp ha with ha1 | ha2
      · rcases List.mem_cons.mp hb with hb1 | hb2
        · rw [ha1, hb1]
        · exfalso
          apply h.1
          rw [ha1] at hk
          rw [hk]
          exact List.mem_map_of_mem FileInfo.key hb2
      · rcases List.mem_cons.mp hb with hb1 | hb2
        · exfalso
          apply h.1
          rw [hb1] at hk
          rw [← hk]
          exact List.mem_map_of_mem FileInfo.key ha2
        · exact ih h.2 a ha2 b hb2 hk

/-- C9: idempotence of the engine.  Running the engine once (force flag
false) and then running it again over the unchanged file list against the
inventory resulting from the first run uploads nothing: every file's second
skip test succeeds, so the second run's uploaded-key list is empty.  The
enumerated files carry pairwise-distinct synchronization keys, as a
directory walk produces. -/
theorem sync_second_run_uploads_nothing (gz : ByteSeq → ByteSeq)
    (md5 det : ByteSeq → String) (inv : String → Option String)
    (files : List FileInfo) (hkeys : (files.map FileInfo.key).Nodup) :
    runUploadedKeys gz md5 det
      (postInventory gz md5 det inv false files) false files = [] := by
  rw [runUploadedKeys, List.filterMap_eq_nil_iff]
  intro f hf
  suffices hskip :
      (uploadFileStep gz md5 det (postInventory gz md5 det inv false files) false f).skipped
        = true by
    rw [hskip]
    rfl
  rw [uploadFileStep_skipped_iff]
  cases hfind : files.find? (fun g =>
      !(uploadFileStep gz md5 det inv false g).skipped && (g.key == f.key)) with
  | some g =>
      have hpred := List.find?_some hfind
      have hgmem := List.mem_of_find?_eq_some hfind
      rw [Bool.and_eq_true, beq_iff_eq] at hpred
      have hgf : g = f := key_inj_of_nodup hkeys g hgmem f hf hpred.2
      refine ⟨(uploadFileStep gz md5 det inv false f).hash, ?_, rfl, ?_⟩
      · show postInventory gz md5 det inv false files f.key = _
        rw [postInventory, hfind, hgf]
      · exact uploadFileStep_hash_congr gz md5 det inv _ false false f
  | none =>
      have hnone := List.find?_eq_none.mp hfind f hf
      rw [Bool.and_eq_true, beq_iff_eq] at hnone
      have hskip1 : (uploadFileStep gz md5 det inv false f).skipped = true := by
        by_contra hc
        exact hnone ⟨by simpa using hc, rfl⟩
      rcases (uploadFileStep_skipped_iff gz md5 det inv false f).mp hskip1 with
        ⟨etag, hetag, _, hval⟩
      refine ⟨etag, ?_, rfl, ?_⟩
      · show postInventory gz md5 det inv false files f.key = some etag
        rw [postInventory, hfind, hetag]
      · rw [hval]
        exact uploadFileStep_hash_congr gz md5 det inv _ false false f

/-- Closed instance: a two-file tree (one small new file, one large
compressed file) over an empty inventory uploads both on the first run and
nothing on the second. -/
theorem sync_second_run_uploads_nothing_witness :
    runUploadedKeys demoGzip demoHash demoDetect (fun _ => none) false
        [FileInfo.mk ("a.txt") ("a.txt") 3 (some [1]),
         FileInfo.mk ("b.txt") ("b.txt") 600 (some [2])]
      = [("a.txt"), ("b.txt")]
    ∧ runUploadedKeys demoGzip demoHash demoDetect
        (postInventory demoGzip demoHash demoDetect (fun _ => none) false
          [FileInfo.mk ("a.txt") ("a.txt") 3 (some [1]),
           FileInfo.mk ("b.txt") ("b.txt") 600 (some [2])]) false
        [FileInfo.mk ("a.txt") ("a.txt") 3 (some [1]),
         FileInfo.mk ("b.txt") ("b.txt") 600 (some [2])]
      = [] := by
  constructor
  · rfl
  · exact sync_second_run_uploads_nothing demoGzip demoHash demoDetect (fun _ => none)
      [FileInfo.mk ("a.txt") ("a.txt") 3 (some [1]),
       FileInfo.mk ("b.txt") ("b.txt") 600 (some [2])] (by decide)

mutual
/-- A filesystem tree node: a regular file or a directory with children (in
directory-traversal order, as `filepath.Walk` visits them). -/
inductive FSNode where
  | file (name : String)
  | dir (name : String) (children : FSList)
/-- A sequence of sibling filesystem nodes. -/
inductive FSList where
  | nil : FSList
  | cons (hd : FSNode) (tl : FSList) : FSList
end

/-- The name of a node (the last component of its path). -/
def nodeName : FSNode → String
  | .file n => n
  | .dir n _ => n

/-- Go's `filepath.Base` on a path modelled as its list of components: the
last component (paths in the walk are never empty). -/
def lastComp (path : List String) : String := (path.getLast?).getD ("")

/-- The `base[0] == '.'` test of lines 235 and 240 of `sync.go`. -/
def startsWithDot (s : String) : Bool := s.front == ('.' : Char)

/-- Lines 236-237 of `sync.go`: `strings.TrimPrefix(path, dirname)` followed
by `strings.TrimPrefix(key, "/")`, on component lists: drop the root's
components. -/
def keyOf (dirname path : List String) : List String := path.drop dirname.length

mutual
/-- The `scan` callback of `GetAllFiles` (lines 231-244) driven by
`filepath.Walk` over a node at `path`: a path equal to "." is passed over;
a non-directory whose base name does not start with a dot is emitted with
its synchronization key; a directory whose base name starts with a dot has
its whole subtree pruned (`filepath.SkipDir`); otherwise the walk descends
into the children in order. -/
def walkFS (dirname path : List String) : FSNode → List (List String × List String)
  | .file _ =>
      if path = [(".")] then []
      else if startsWithDot (lastComp path) then []
      else [(path, keyOf dirname path)]
  | .dir _ children =>
      if path = [(".")] then walkFSChildren dirname path children
      else if startsWithDot (lastComp path) then []
      else walkFSChildren dirname path children
/-- The walk over a directory's children: each child is visited at the
parent path extended with the child's name. -/
def walkFSChildren (dirname path : List String) :
    FSList → List (List String × List String)
  | .nil => []
  | .cons c cs =>
      walkFS dirname (path ++ [nodeName c]) c ++ walkFSChildren dirname path cs
end

/-- Lines 230-248 of `sync.go`: `GetAllFiles` walks the tree rooted at
`dirname` and emits `(path, key)` pairs on the files channel. -/
def GetAllFiles (dirname : List String) (root : FSNode) :
    List (List String × List String) :=
  walkFS dirname dirname root

mutual
/-- The enumeration the claim describes, written from its words: the
relative paths of the non-directory entries whose base name does not start
with a dot, with the entire subtree of any dot-named directory pruned. -/
def specVisibleFiles : FSNode → List (List String)
  | .file n => if startsWithDot n then [] else [[n]]
  | .dir n children =>
      if startsWithDot n then []
      else (specVisibleFilesList children).map (fun q => n :: q)
/-- `specVisibleFiles` over a sequence of siblings. -/
def specVisibleFilesList : FSList → List (List String)
  | .nil => []
  | .cons c cs => specVisibleFiles c ++ specVisibleFilesList cs
end

lemma lastComp_concat (l : List String) (a : String) : lastComp (l ++ [a]) = a := by
  simp [lastComp, List.getLast?_concat]

lemma append_concat_ne_dot (l b : List String) (a : String) (hl : l ≠ []) :
    l ++ b ++ [a] ≠ [(".")] := by
  intro h
  have hlen := congrArg List.length h
  simp [List.length_append] at hlen
  exact hl (List.length_eq_zero.mp (by omega))

mutual
theorem walkFS_eq_specVisible (dirname pref : List String) (hd : dirname ≠ [])
    (c : FSNode) :
    walkFS dirname (dirname ++ pref ++ [nodeName c]) c
      = (specVisibleFiles c).map (fun q => (dirname ++ pref ++ q, pref ++ q)) := by
  cases c with
  | file n =>
      have hne : dirname ++ pref ++ [n] ≠ [(".")] :=
        append_concat_ne_dot dirname pref n hd
      have hlast : lastComp (dirname ++ pref ++ [n]) = n :=
        lastComp_concat (dirname ++ pref) n
      show walkFS dirname (dirname ++ pref ++ [n]) (FSNode.file n) = _
      simp only [walkFS]
      rw [if_neg hne, hlast]
      by_cases hdot : startsWithDot n = true
      · rw [if_pos hdot]
        simp [specVisibleFiles, hdot]
      · rw [if_neg hdot]
        have hkey : keyOf dirname (dirname ++ pref ++ [n]) = pref ++ [n] := by
          rw [keyOf, List.append_assoc, List.drop_left]
        rw [hkey]
        simp [specVisibleFiles, hdot]
  | dir n children =>
      have hne : dirname ++ pref ++ [n] ≠ [(".")] :=
        append_concat_ne_dot dirname pref n hd
      have hlast : lastComp (dirname ++ pref ++ [n]) = n :=
        lastComp_concat (dirname ++ pref) n
      show walkFS dirname (dirname ++ pref ++ [n]) (FSNode.dir n children) = _
      simp only [walkFS]
      rw [if_neg hne, hlast]
      by_cases hdot : startsWithDot n = true
      · rw [if_pos hdot]
        simp [specVisibleFiles, hdot]
      · rw [if_neg hdot, List.append_assoc,
          walkFSChildren_eq_specVisible dirname (pref ++ [n]) hd children]
        simp only [specVisibleFiles, hdot, Bool.false_eq_true, if_false, List.map_map]
        apply List.map_congr_left
        intro q hq
        simp [Function.comp, List.append_assoc]
theorem walkFSChildren_eq_specVisible (dirname pref : List String) (hd : dirname ≠ [])
    (cs : FSList) :
    walkFSChildren dirname (dirname ++ pref) cs
      = (specVisibleFilesList cs).map (fun q => (dirname ++ pref ++ q, pref ++ q)) := by
  cases cs with
  | nil => simp [walkFSChildren, specVisibleFilesList]
  | cons c cs' =>
      show walkFS dirname (dirname ++ pref ++ [nodeName c]) c
          ++ walkFSChildren dirname (dirname ++ pref) cs' = _
      rw [walkFS_eq_specVisible dirname pref hd c,
        walkFSChildren_eq_specVisible dirname pref hd cs']
      simp [specVisibleFilesList, List.map_append]
end

lemma specVisibleFiles_mem_ne_nil (c : FSNode) : ∀ q ∈ specVisibleFiles c, q ≠ [] := by
  cases c with
  | file n =>
      intro q hq
      by_cases hdot : startsWithDot n = true
      · simp [specVisibleFiles, hdot] at hq
      · simp [specVisibleFiles, hdot] at hq
        rw [hq]
        exact List.cons_ne_nil n []
  | dir n cs =>
      intro q hq
      by_cases hdot : startsWithDot n = true
      · simp [specVisibleFiles, hdot] at hq
      · simp [specVisibleFiles, hdot] at hq
        rcases hq with ⟨r, _, hr⟩
        rw [← hr]
        exact List.cons_ne_nil n r

theorem specVisibleFilesList_mem_ne_nil :
    ∀ (cs : FSList), ∀ q ∈ specVisibleFilesList cs, q ≠ []
  | .nil => by
      intro q hq
      simp [specVisibleFilesList] at hq
  | .cons c cs' => by
      intro q hq
      rcases List.mem_append.mp (by simpa [specVisibleFilesList] using hq) with h1 | h2
      · exact specVisibleFiles_mem_ne_nil c q h1
      · exact specVisibleFilesList_mem_ne_nil cs' q h2

/-- C7: for a root directory (non-empty path, not ".", base name not
starting with a dot), the enumerator emits exactly the non-directory entries
whose base name does not start with a dot, with the whole subtree of every
dot-named directory pruned (each with its path under the root and its
relative key), and the root path itself is never emitted. -/
theorem getAllFiles_hidden_exclusion (dirname : List String) (rootName : String)
    (children : FSList) (hd : dirname ≠ []) (hne : dirname ≠ [(".")])
    (hdot : startsWithDot (lastComp dirname) = false) :
    GetAllFiles dirname (FSNode.dir rootName children)
      = (specVisibleFilesList children).map (fun q => (dirname ++ q, q))
    ∧ ∀ pr ∈ GetAllFiles dirname (FSNode.dir rootName children), pr.1 ≠ dirname := by
  have heq : GetAllFiles dirname (FSNode.dir rootName children)
      = (specVisibleFilesList children).map (fun q => (dirname ++ q, q)) := by
    rw [GetAllFiles]
    have hstep : walkFS dirname dirname (FSNode.dir rootName children)
        = walkFSChildren dirname dirname children := by
      simp [walkFS, hne, hdot]
    rw [hstep]
    have hlist := walkFSChildren_eq_specVisible dirname [] hd children
    simpa using hlist
  refine ⟨heq, ?_⟩
  intro pr hpr
  rw [heq] at hpr
  rcases List.mem_map.mp hpr with ⟨q, hq, hpr'⟩
  have hq0 := specVisibleFilesList_mem_ne_nil children q hq
  intro hcontra
  rw [← hpr'] at hcontra
  simp at hcontra
  exact hq0 hcontra

/-- The sibling list of the claim's example root: a dot-named directory
holding a file, a dot-named file, and a visible file. -/
def demoRootChildren : FSList :=
  FSList.cons (FSNode.dir (".git") (FSList.cons (FSNode.file ("config")) FSList.nil))
    (FSList.cons (FSNode.file (".hidden"))
      (FSList.cons (FSNode.file ("visible.txt")) FSList.nil))

/-- Closed instance of the claim's example: of `.git/config`, `.hidden` and
`visible.txt` under root `/r`, only `visible.txt` is enumerated. -/
theorem getAllFiles_hidden_exclusion_witness :
    GetAllFiles [("r")] (FSNode.dir ("r") demoRootChildren)
      = [(([("r"), ("visible.txt")]), ([("visible.txt")]))] := by
  have h := (getAllFiles_hidden_exclusion [("r")] ("r") demoRootChildren
    (by decide) (by decide) (by decide)).1
  rw [h]
  rfl
